import Mathlib

/-!
Policy-based placement selector (package `selector`).

Shallow embedding of `pkg/controller/selector/selector.go`:
`SelectProfile`, `SelectSupportedPool` and `SelectDock`, followed by the
properties of the three resolvers.

Conventions of the embedding.

* A Go call returns a value, returns an error, or aborts with a run-time
  panic (a failed type assertion `x.(T)`, a nil dereference).  The three
  results are the constructors of `Outcome`.
* `interface{}` values are the variant type `Value`.
* A Go `map[string]interface{}` is an association list; indexing is
  `List.lookup`, and `for k := range m` visits the keys in the order of the
  list (Go leaves that order unspecified, so the order is part of the input).
* The lists handed back by the collaborator hold pointers to entities; the
  embedding takes them to be non-nil, so a list is a list of records.  The
  only pointer that the selector itself can leave nil is the variable `pol`
  of `SelectDock`, which is an `Option`.
* Go's `int` is a machine integer; the selector only compares two of them, so
  `Int` with its order is the same.
* The data-access collaborator `db.Client`, the entity types of package
  `model` and the library function `strings.ToLower` are not part of the
  source file.  The collaborator is the record `Client` of its answers, the
  entities are records of the fields that the selector reads, and
  `strings.ToLower` is an argument `toLower` of the functions that call it.
-/

namespace selector

/-! ## Values, errors, outcomes -/

/-- A dynamically typed Go value (`interface{}`): the dynamic types that the
type assertions of the selector distinguish (`string`, `int`), and some of the
other types a tag can hold. -/
inductive Value where
  | str (s : String)
  | int (n : Int)
  | float (mantissa : Int) (exponent : Int)
  | bool (b : Bool)
  | nil
  deriving DecidableEq

/-- A Go `error` value: one made by `errors.New` inside the selector, or one
handed back by the data-access collaborator. -/
inductive Err where
  | new (msg : String)
  | db (e : String)
  deriving DecidableEq

/-- Result of a Go call: a value with a nil error, a non-nil error, or a
run-time panic. -/
inductive Outcome (α : Type) where
  | ok (a : α)
  | error (e : Err)
  | panic
  deriving DecidableEq

/-- A Go map `map[string]interface{}`, as the list of its entries. -/
abbrev Params := List (String × Value)

/-- The keys of a map in the order in which `range` visits them. -/
def keys (m : Params) : List String := m.map Prod.fst

/-- Map indexing `m[k]` with one result: the zero value of `interface{}`
(nil) when the key is absent. -/
def index (m : Params) (k : String) : Value := (m.lookup k).getD Value.nil

/-! ## Entities of package `model` -/

/-- Modelled from the spec: `model.ProfileSpec` is declared outside the source
file; identifier, name and the desired-capability tag set. -/
structure ProfileSpec where
  Id : String
  Name : String
  Extra : Params
  deriving DecidableEq

/-- Modelled from the spec: `model.StoragePoolSpec` is declared outside the
source file; identifier, owning dock identifier and the capability-parameter
mapping. -/
structure StoragePoolSpec where
  Id : String
  DockId : String
  Parameters : Params
  deriving DecidableEq

/-- Modelled from the spec: `model.DockSpec` is declared outside the source
file; only its identifier is read. -/
structure DockSpec where
  Id : String
  deriving DecidableEq

/-- Modelled from the spec: `model.VolumeSpec` is declared outside the source
file; identifier and the pool it was provisioned from. -/
structure VolumeSpec where
  Id : String
  PoolId : String
  deriving DecidableEq

/-- Modelled from the spec: the read-only data-access collaborator `db.Client`
(field `storBox` of the selector), as the answers it gives. -/
structure Client where
  ListProfiles : Except Err (List ProfileSpec)
  GetProfile : String → Except Err ProfileSpec
  ListPools : Except Err (List StoragePoolSpec)
  GetPool : String → Except Err StoragePoolSpec
  ListDocks : Except Err (List DockSpec)
  GetVolume : String → Except Err VolumeSpec

/-- A pair `(value, err)` returned by the collaborator, passed on unchanged. -/
def ofExcept {α : Type} : Except Err α → Outcome α
  | .ok a => .ok a
  | .error e => .error e

/-- The function `strings.ToLower` on ASCII text: the letters `A`..`Z` are
mapped to `a`..`z`, every other character is kept.  Used where a lower-casing
function has to be evaluated on concrete keys. -/
def asciiToLower (s : String) : String := String.mk (s.data.map Char.toLower)

/-! ## SelectProfile -/

/-- The message of the error returned when no profile is named "default". -/
def noDefaultProfile : Err := Err.new "Can not find default profile in db!"

/-- The loop `for _, prf := range prfs` of `SelectProfile`: the first profile
whose name is "default" is returned; the error follows the loop. -/
def findDefault : List ProfileSpec → Outcome ProfileSpec
  | [] => .error noDefaultProfile
  | prf :: rest => if prf.Name = "default" then .ok prf else findDefault rest

/-- Embedding of `selector.SelectProfile`. -/
def SelectProfile (c : Client) (prfID : String) : Outcome ProfileSpec :=
  if prfID = "" then
    match c.ListProfiles with
    | .error err => .error err
    | .ok prfs => findDefault prfs
  else
    ofExcept (c.GetProfile prfID)

/-! ## SelectSupportedPool -/

/-- The message of the error returned when no pool supports the tags. -/
def noSupportedPool : Err := Err.new "No pool resource supported!"

/-- How one pass through the body of `for k := range tags` ends: the loop goes
on to the next key, the loop is left by `break`, or a type assertion panics.
The flag is the value of `isSupported` afterwards. -/
inductive Step where
  | next (isSupported : Bool)
  | brk (isSupported : Bool)
  | panic
  deriving DecidableEq

/-- The type assertions and comparison `tags[k].(string) != p.(string)`. -/
def strNe (t p : Value) : Option Bool :=
  match t, p with
  | .str a, .str b => some (a != b)
  | _, _ => none

/-- The type assertions and comparison `tags[k].(int) > p.(int)`. -/
def intGt (t p : Value) : Option Bool :=
  match t, p with
  | .int a, .int b => some (decide (a > b))
  | _, _ => none

/-- One pass through the body of `for k := range tags` for the pool `pol`.
A `break` inside the `switch` leaves the `switch` only, so after a failed
comparison the loop goes on with `isSupported = false`. -/
def tagStep (toLower : String → String) (tags : Params) (pol : StoragePoolSpec)
    (isSupported : Bool) (k : String) : Step :=
  match pol.Parameters.lookup k with
  | none => .brk false
  | some p =>
    if toLower k = "diskType" then
      match strNe (index tags k) p with
      | none => .panic
      | some true => .next false
      | some false => .next isSupported
    else if toLower k = "iops" ∨ toLower k = "latency" then
      match intGt (index tags k) p with
      | none => .panic
      | some true => .next false
      | some false => .next isSupported
    else .next isSupported

/-- The loop `for k := range tags` over the keys `ks` still to visit, entered
with `isSupported = s`; the result is the final value of `isSupported`, and
`none` when a type assertion panics. -/
def tagLoop (toLower : String → String) (tags : Params) (pol : StoragePoolSpec) :
    List String → Bool → Option Bool
  | [], s => some s
  | k :: ks, s =>
    match tagStep toLower tags pol s k with
    | .next s1 => tagLoop toLower tags pol ks s1
    | .brk s1 => some s1
    | .panic => none

/-- The value of `isSupported` after the tag loop for one pool (`none`: the
loop panics). -/
def isSupported (toLower : String → String) (tags : Params) (pol : StoragePoolSpec) :
    Option Bool :=
  tagLoop toLower tags pol (keys tags) true

/-- The loop `for _, pol := range pols`: the first pool whose tag loop ends
with `isSupported` true is returned; the error follows the loop. -/
def poolLoop (toLower : String → String) (tags : Params) :
    List StoragePoolSpec → Outcome StoragePoolSpec
  | [] => .error noSupportedPool
  | pol :: rest =>
    match isSupported toLower tags pol with
    | some true => .ok pol
    | some false => poolLoop toLower tags rest
    | none => .panic

/-- Embedding of `selector.SelectSupportedPool`. -/
def SelectSupportedPool (toLower : String → String) (c : Client) (tags : Params) :
    Outcome StoragePoolSpec :=
  match c.ListPools with
  | .error err => .error err
  | .ok pols => poolLoop toLower tags pols

/-! ## SelectDock -/

/-- The message of the error returned when no dock owns the pool. -/
def noSupportedDock : Err := Err.new "No dock resource supported!"

/-- The argument `input interface{}` of `SelectDock`: a string (a volume
identifier), a pool, or a value of any other dynamic type. -/
inductive DockInput where
  | volumeId (volID : String)
  | pool (pol : StoragePoolSpec)
  | other (v : Value)

/-- The type switch of `SelectDock`, which sets the variable `pol`; it stays
nil (`none`) when no case applies. -/
def resolvePool (c : Client) : DockInput → Outcome (Option StoragePoolSpec)
  | .volumeId volID =>
    match c.GetVolume volID with
    | .error err => .error err
    | .ok vol =>
      match c.GetPool vol.PoolId with
      | .error err => .error err
      | .ok pol => .ok (some pol)
  | .pool pol => .ok (some pol)
  | .other _ => .ok none

/-- The call `pol.GetDockId()`.  The getter is declared outside the source
file: `nilDockId` is what it answers for a nil receiver, `none` when it
dereferences the receiver and panics. -/
def GetDockId (nilDockId : Option String) : Option StoragePoolSpec → Option String
  | some pol => some pol.DockId
  | none => nilDockId

/-- The loop `for _, dck := range dcks`: the first dock whose identifier is the
dock identifier of the pool is returned; the error follows the loop. -/
def dockLoop (nilDockId : Option String) (pol : Option StoragePoolSpec) :
    List DockSpec → Outcome DockSpec
  | [] => .error noSupportedDock
  | dck :: rest =>
    match GetDockId nilDockId pol with
    | none => .panic
    | some id => if dck.Id = id then .ok dck else dockLoop nilDockId pol rest

/-- Embedding of `selector.SelectDock`. -/
def SelectDock (nilDockId : Option String) (c : Client) (input : DockInput) :
    Outcome DockSpec :=
  match c.ListDocks with
  | .error err => .error err
  | .ok dcks =>
    match resolvePool c input with
    | .error err => .error err
    | .panic => .panic
    | .ok pol => dockLoop nilDockId pol dcks

/-! ## Concrete data used in the examples -/

/-- A collaborator that holds the given profiles, pools, docks and volumes and
answers a lookup of an absent identifier with an error. -/
def fakeClient (prfs : List ProfileSpec) (pols : List StoragePoolSpec)
    (dcks : List DockSpec) (vols : List VolumeSpec) : Client where
  ListProfiles := .ok prfs
  GetProfile := fun id =>
    match prfs.find? (fun p => p.Id == id) with
    | some p => .ok p
    | none => .error (Err.db "profile not found")
  ListPools := .ok pols
  GetPool := fun id =>
    match pols.find? (fun p => p.Id == id) with
    | some p => .ok p
    | none => .error (Err.db "pool not found")
  ListDocks := .ok dcks
  GetVolume := fun id =>
    match vols.find? (fun v => v.Id == id) with
    | some v => .ok v
    | none => .error (Err.db "volume not found")

/-- A collaborator that holds only pools. -/
def poolClient (pols : List StoragePoolSpec) : Client := fakeClient [] pols [] []

/-- The profile of the scenario. -/
def p1 : ProfileSpec := ⟨"p1", "default", []⟩

/-- A profile with another name and tags. -/
def prfGold : ProfileSpec := ⟨"p2", "gold", [("diskType", Value.str "ssd")]⟩

/-- Profiles whose names are close to "default" without being it. -/
def prfNear : List ProfileSpec := [⟨"p3", "Default", []⟩, ⟨"p4", "default ", []⟩]

/-- The docks used in the examples. -/
def d1 : DockSpec := ⟨"d1"⟩

/-- A second dock. -/
def d2 : DockSpec := ⟨"d2"⟩

/-- A volume provisioned from the pool pl1. -/
def vol1 : VolumeSpec := ⟨"v1", "pl1"⟩

/-- The pool of the scenario: disk type "ssd", 500 IOPS. -/
def pl1 : StoragePoolSpec :=
  ⟨"pl1", "d1", [("diskType", Value.str "ssd"), ("iops", Value.int 500)]⟩

/-- A pool with disk type "hdd". -/
def plHdd : StoragePoolSpec := ⟨"pl2", "d1", [("diskType", Value.str "hdd")]⟩

/-- A pool with the ceiling 200 under "iops" and under "latency", and a zone. -/
def pl200 : StoragePoolSpec :=
  ⟨"pl3", "d2", [("iops", Value.int 200), ("latency", Value.int 200),
    ("zone", Value.str "z1")]⟩

/-- A pool whose "iops" parameter is a string. -/
def plBad : StoragePoolSpec := ⟨"pl4", "d2", [("iops", Value.str "fast")]⟩

/-- A collaborator whose every call fails. -/
def downClient : Client where
  ListProfiles := .error (Err.db "down")
  GetProfile := fun _ => .error (Err.db "down")
  ListPools := .error (Err.db "down")
  GetPool := fun _ => .error (Err.db "down")
  ListDocks := .error (Err.db "down")
  GetVolume := fun _ => .error (Err.db "down")

/-- A volume whose pool is not in the inventory. -/
def volLost : VolumeSpec := ⟨"v2", "pl9"⟩

/-- A second profile named "default". -/
def prfDup : ProfileSpec := ⟨"p5", "default", [("iops", Value.int 1)]⟩

/-- A pool with a zone and a tier and no numeric parameter. -/
def plZone : StoragePoolSpec :=
  ⟨"pl5", "d1", [("zone", Value.int 3), ("tier", Value.nil)]⟩

/-- A pool whose "diskType" parameter is not a string. -/
def plOdd : StoragePoolSpec :=
  ⟨"pl6", "d2", [("diskType", Value.int 7), ("iops", Value.int 200)]⟩

/-! ## Predicates used to state the properties -/

/-- The result of the lower-casing function holds no upper-case ASCII letter
(true of `strings.ToLower`). -/
def LowerCased (toLower : String → String) : Prop :=
  ∀ s : String, ∀ ch ∈ (toLower s).data, ch.isUpper = false

/-- The key lower-cases to "iops" or "latency": the keys for which the selector
compares numbers. -/
def ceilingKey (toLower : String → String) (k : String) : Prop :=
  toLower k = "iops" ∨ toLower k = "latency"

instance (toLower : String → String) (k : String) : Decidable (ceilingKey toLower k) := by
  unfold ceilingKey
  infer_instance

/-- The pool has a parameter under the key. -/
def hasKey (pol : StoragePoolSpec) (k : String) : Prop :=
  (pol.Parameters.lookup k).isSome = true

instance (pol : StoragePoolSpec) (k : String) : Decidable (hasKey pol k) := by
  unfold hasKey
  infer_instance

/-- Every tag value under a key that lower-cases to "iops" or "latency" is an
`int`. -/
def tagsTyped (toLower : String → String) (tags : Params) : Prop :=
  ∀ k ∈ keys tags, ceilingKey toLower k → ∃ a : Int, index tags k = Value.int a

/-- Every parameter that the pool stores under a tag key that lower-cases to
"iops" or "latency" is an `int`. -/
def poolTyped (toLower : String → String) (tags : Params) (pol : StoragePoolSpec) : Prop :=
  ∀ k ∈ keys tags, ceilingKey toLower k →
    ∀ p, pol.Parameters.lookup k = some p → ∃ b : Int, p = Value.int b

/-- The desired value under the key is an `int` that does not exceed the `int`
that the pool stores under the key. -/
def withinCeiling (tags : Params) (pol : StoragePoolSpec) (k : String) : Prop :=
  ∃ a b : Int, index tags k = Value.int a ∧
    pol.Parameters.lookup k = some (Value.int b) ∧ a ≤ b

/-- The desired value under the key is an `int` that exceeds the `int` that the
pool stores under the key. -/
def aboveCeiling (tags : Params) (pol : StoragePoolSpec) (k : String) : Prop :=
  ∃ a b : Int, index tags k = Value.int a ∧
    pol.Parameters.lookup k = some (Value.int b) ∧ a > b

/-- The desired value under the key and the parameter of the pool under the
key are the same string. -/
def sameString (tags : Params) (pol : StoragePoolSpec) (k : String) : Prop :=
  ∃ v : String, index tags k = Value.str v ∧
    pol.Parameters.lookup k = some (Value.str v)

/-- The matching rules as the specification words them (section 4.2): every
tag key is a key of the pool; under a key that is "diskType" up to case the two
values are equal strings; under a key that is "iops" or "latency" up to case
the desired value is within the ceiling; for any other key presence is enough. -/
def specMatches (toLower : String → String) (tags : Params) (pol : StoragePoolSpec) : Prop :=
  ∀ k ∈ keys tags, hasKey pol k ∧
    (toLower k = toLower "diskType" → sameString tags pol k) ∧
    (ceilingKey toLower k → withinCeiling tags pol k)

/-- The rule that the tag loop applies to the pool: every tag key is a key of
the pool, and under every key that lower-cases to "iops" or "latency" the
desired value is within the ceiling of the pool. -/
def accepts (toLower : String → String) (tags : Params) (pol : StoragePoolSpec) : Prop :=
  ∀ k ∈ keys tags, hasKey pol k ∧ (ceilingKey toLower k → withinCeiling tags pol k)

/-- Under the key, the tag value or the parameter of the pool is not an `int`. -/
def illTyped (tags : Params) (pol : StoragePoolSpec) (k : String) : Prop :=
  ¬ ((∃ a : Int, index tags k = Value.int a) ∧
    ∃ b : Int, pol.Parameters.lookup k = some (Value.int b))

/-- The first dock of the inventory whose identifier is `id`. -/
def firstDock (id : String) (dcks : List DockSpec) : Option DockSpec :=
  dcks.find? (fun d => decide (d.Id = id))

/-- The first pool of the inventory whose parameters contain every key of
the list. -/
def firstWithKeys (ks : List String) (pols : List StoragePoolSpec) :
    Option StoragePoolSpec :=
  pols.find? (fun pol => decide (∀ k ∈ ks, hasKey pol k))

/-- The tag set `T2` extends the tag set `T`: every key of `T` is a key of
`T2`, with the same value. -/
def tagsExtend (T T2 : Params) : Prop :=
  ∀ k ∈ keys T, k ∈ keys T2 ∧ index T2 k = index T k

instance (T T2 : Params) : Decidable (tagsExtend T T2) := by
  unfold tagsExtend
  infer_instance

/-! ## Lemmas on the lower-casing function -/

theorem toLower_ne_diskType {toLower : String → String} (hlow : LowerCased toLower)
    (k : String) : toLower k ≠ "diskType" := by
  intro h
  have h1 := hlow k 'T' (by rw [h]; decide)
  exact absurd h1 (by decide)

theorem char_toLower_not_upper (ch : Char) : (Char.toLower ch).isUpper = false := by
  unfold Char.toLower
  simp only []
  split
  · rename_i h
    obtain ⟨h1, h2⟩ := h
    generalize ch.toNat = n at h1 h2
    interval_cases n <;> decide
  · rename_i h
    simp only [Char.isUpper, Char.toNat] at h ⊢
    simp only [Bool.and_eq_false_imp, decide_eq_true_eq, decide_eq_false_iff_not]
    intro h1 h2
    exact h ⟨h1, h2⟩

theorem asciiToLower_lowerCased : LowerCased asciiToLower := by
  intro s ch hch
  simp only [asciiToLower, List.mem_map] at hch
  obtain ⟨c0, _, rfl⟩ := hch
  exact char_toLower_not_upper c0

/-! ## Lemmas on the tag loop -/

theorem intGt_eq_some_false {t p : Value} :
    intGt t p = some false ↔ ∃ a b : Int, t = Value.int a ∧ p = Value.int b ∧ a ≤ b := by
  cases t <;> cases p <;> simp [intGt]

theorem intGt_eq_some_true {t p : Value} :
    intGt t p = some true ↔ ∃ a b : Int, t = Value.int a ∧ p = Value.int b ∧ a > b := by
  cases t <;> cases p <;> simp [intGt]

theorem intGt_eq_none {t p : Value} :
    intGt t p = none ↔ ¬ ((∃ a : Int, t = Value.int a) ∧ ∃ b : Int, p = Value.int b) := by
  cases t <;> cases p <;> simp [intGt]

theorem tagStep_next_true {toLower : String → String} {tags : Params}
    {pol : StoragePoolSpec} {s : Bool} {k : String} :
    tagStep toLower tags pol s k = Step.next true ↔
      s = true ∧ tagStep toLower tags pol true k = Step.next true := by
  unfold tagStep
  cases s <;> (split <;> [simp; (split_ifs <;> [(split <;> simp); (split <;> simp); simp])])

theorem tagStep_brk {toLower : String → String} {tags : Params}
    {pol : StoragePoolSpec} {s s1 : Bool} {k : String}
    (h : tagStep toLower tags pol s k = Step.brk s1) :
    s1 = false ∧ pol.Parameters.lookup k = none := by
  unfold tagStep at h
  split at h
  · simp at h; exact ⟨h, by assumption⟩
  · split_ifs at h <;> (split at h <;> simp at h)

theorem tagLoop_eq_true {toLower : String → String} {tags : Params}
    {pol : StoragePoolSpec} (ks : List String) (s : Bool) :
    tagLoop toLower tags pol ks s = some true ↔
      s = true ∧ ∀ k ∈ ks, tagStep toLower tags pol true k = Step.next true := by
  induction ks generalizing s with
  | nil => simp [tagLoop]
  | cons k ks ih =>
    rw [tagLoop]
    cases h : tagStep toLower tags pol s k with
    | next s1 =>
      simp only [ih, List.mem_cons, forall_eq_or_imp]
      constructor
      · rintro ⟨rfl, h2⟩
        have := tagStep_next_true.mp h
        exact ⟨this.1, this.2, h2⟩
      · rintro ⟨rfl, h1, h2⟩
        rw [h1] at h
        injection h with h
        exact ⟨h.symm, h2⟩
    | brk s1 =>
      have hb := (tagStep_brk h).1
      subst hb
      simp only [List.mem_cons, forall_eq_or_imp]
      constructor
      · intro h0; simp at h0
      · rintro ⟨rfl, h1, _⟩
        rw [h1] at h; cases h
    | panic =>
      simp only [List.mem_cons, forall_eq_or_imp]
      constructor
      · intro h0; simp at h0
      · rintro ⟨rfl, h1, _⟩
        rw [h1] at h; cases h

theorem tagStep_true_imp {toLower : String → String} {tags : Params}
    {pol : StoragePoolSpec} {k : String}
    (h : tagStep toLower tags pol true k = Step.next true) :
    hasKey pol k ∧ (ceilingKey toLower k → withinCeiling tags pol k) := by
  unfold tagStep at h
  split at h
  · simp at h
  · rename_i p hp
    refine ⟨by simp [hasKey, hp], ?_⟩
    intro hc
    split_ifs at h with h1 h2
    · rcases hc with hc | hc <;> rw [h1] at hc <;> exact absurd hc (by decide)
    · cases hg : intGt (index tags k) p with
      | none => rw [hg] at h; simp at h
      | some b =>
        cases b with
        | true => rw [hg] at h; simp at h
        | false =>
          obtain ⟨a, b, ha, hb, hab⟩ := intGt_eq_some_false.mp hg
          exact ⟨a, b, ha, by rw [hp, hb], hab⟩
    · exact absurd hc h2

theorem tagStep_true_of {toLower : String → String} (hlow : LowerCased toLower)
    {tags : Params} {pol : StoragePoolSpec} {k : String}
    (hk : hasKey pol k) (hc : ceilingKey toLower k → withinCeiling tags pol k) :
    tagStep toLower tags pol true k = Step.next true := by
  unfold tagStep
  split
  · rename_i hp
    simp [hasKey, hp] at hk
  · rename_i p hp
    rw [if_neg (toLower_ne_diskType hlow k)]
    split_ifs with h2
    · obtain ⟨a, b, ha, hb, hab⟩ := hc h2
      rw [hp] at hb
      injection hb with hb
      have hg : intGt (index tags k) p = some false :=
        intGt_eq_some_false.mpr ⟨a, b, ha, hb, hab⟩
      rw [hg]
    · rfl

theorem isSupported_true_accepts {toLower : String → String} {tags : Params}
    {pol : StoragePoolSpec} (h : isSupported toLower tags pol = some true) :
    accepts toLower tags pol := by
  intro k hk
  exact tagStep_true_imp (((tagLoop_eq_true (keys tags) true).mp h).2 k hk)

theorem isSupported_eq_true_iff {toLower : String → String} (hlow : LowerCased toLower)
    {tags : Params} {pol : StoragePoolSpec} :
    isSupported toLower tags pol = some true ↔ accepts toLower tags pol := by
  constructor
  · exact isSupported_true_accepts
  · intro h
    exact (tagLoop_eq_true (keys tags) true).mpr
      ⟨rfl, fun k hk => tagStep_true_of hlow (h k hk).1 (h k hk).2⟩

theorem tagStep_ne_panic {toLower : String → String} (hlow : LowerCased toLower)
    {tags : Params} {pol : StoragePoolSpec} {k : String} (hk : k ∈ keys tags)
    (ht : tagsTyped toLower tags) (hp : poolTyped toLower tags pol) (s : Bool) :
    tagStep toLower tags pol s k ≠ Step.panic := by
  unfold tagStep
  split
  · simp
  · rename_i p hlk
    rw [if_neg (toLower_ne_diskType hlow k)]
    split_ifs with h2
    · obtain ⟨a, ha⟩ := ht k hk h2
      obtain ⟨b, hb⟩ := hp k hk h2 p hlk
      rw [ha, hb]
      simp only [intGt]
      cases decide (a > b) <;> simp
    · simp

theorem tagLoop_ne_none {toLower : String → String} {tags : Params}
    {pol : StoragePoolSpec} (ks : List String)
    (h : ∀ k ∈ ks, ∀ s, tagStep toLower tags pol s k ≠ Step.panic) (s : Bool) :
    tagLoop toLower tags pol ks s ≠ none := by
  induction ks generalizing s with
  | nil => simp [tagLoop]
  | cons k ks ih =>
    rw [tagLoop]
    cases hs : tagStep toLower tags pol s k with
    | next s1 => exact ih (fun k1 hk1 => h k1 (List.mem_cons_of_mem _ hk1)) s1
    | brk s1 => simp
    | panic => exact absurd hs (h k (List.mem_cons_self _ _) s)

theorem isSupported_ne_none {toLower : String → String} (hlow : LowerCased toLower)
    {tags : Params} {pol : StoragePoolSpec}
    (ht : tagsTyped toLower tags) (hp : poolTyped toLower tags pol) :
    isSupported toLower tags pol ≠ none :=
  tagLoop_ne_none (keys tags) (fun _ hk s => tagStep_ne_panic hlow hk ht hp s) true

theorem isSupported_eq_false_iff {toLower : String → String} (hlow : LowerCased toLower)
    {tags : Params} {pol : StoragePoolSpec}
    (ht : tagsTyped toLower tags) (hp : poolTyped toLower tags pol) :
    isSupported toLower tags pol = some false ↔ ¬ accepts toLower tags pol := by
  rw [← isSupported_eq_true_iff hlow]
  have hn := isSupported_ne_none hlow ht hp
  cases h : isSupported toLower tags pol with
  | none => exact absurd h hn
  | some b => cases b <;> simp

/-! ## Lemmas on the pool loop -/

theorem poolLoop_ok {toLower : String → String} {tags : Params}
    (pols : List StoragePoolSpec) (pol : StoragePoolSpec) :
    poolLoop toLower tags pols = Outcome.ok pol ↔
      ∃ pre rest, pols = pre ++ pol :: rest ∧
        (∀ q ∈ pre, isSupported toLower tags q = some false) ∧
        isSupported toLower tags pol = some true := by
  induction pols with
  | nil => simp [poolLoop]
  | cons q qs ih =>
    rw [poolLoop]
    cases h : isSupported toLower tags q with
    | none =>
      constructor
      · intro h0; cases h0
      rintro ⟨pre, rest, heq, hpre, hpol⟩
      cases pre with
      | nil =>
        simp only [List.nil_append, List.cons.injEq] at heq
        rw [heq.1, hpol] at h; cases h
      | cons x xs =>
        simp only [List.cons_append, List.cons.injEq] at heq
        have := hpre x (List.mem_cons_self _ _)
        rw [← heq.1, h] at this; cases this
    | some b =>
      cases b with
      | true =>
        simp only [Outcome.ok.injEq]
        constructor
        · rintro rfl
          exact ⟨[], qs, rfl, by simp, h⟩
        · rintro ⟨pre, rest, heq, hpre, hpol⟩
          cases pre with
          | nil =>
            simp only [List.nil_append, List.cons.injEq] at heq
            exact heq.1
          | cons x xs =>
            simp only [List.cons_append, List.cons.injEq] at heq
            have := hpre x (List.mem_cons_self _ _)
            rw [← heq.1, h] at this; cases this
      | false =>
        simp only [ih]
        constructor
        · rintro ⟨pre, rest, heq, hpre, hpol⟩
          refine ⟨q :: pre, rest, by simp [heq], ?_, hpol⟩
          intro x hx
          rcases List.mem_cons.mp hx with rfl | hx
          · exact h
          · exact hpre x hx
        · rintro ⟨pre, rest, heq, hpre, hpol⟩
          cases pre with
          | nil =>
            simp only [List.nil_append, List.cons.injEq] at heq
            rw [heq.1, hpol] at h; cases h
          | cons x xs =>
            simp only [List.cons_append, List.cons.injEq] at heq
            exact ⟨xs, rest, heq.2, fun y hy => hpre y (List.mem_cons_of_mem _ hy), hpol⟩

theorem poolLoop_error {toLower : String → String} {tags : Params}
    (pols : List StoragePoolSpec) (e : Err) :
    poolLoop toLower tags pols = Outcome.error e ↔
      e = noSupportedPool ∧ ∀ q ∈ pols, isSupported toLower tags q = some false := by
  induction pols with
  | nil => simp [poolLoop, eq_comm]
  | cons q qs ih =>
    rw [poolLoop]
    cases h : isSupported toLower tags q with
    | none => simp [h]
    | some b => cases b <;> simp [h, ih]

theorem poolLoop_panic {toLower : String → String} {tags : Params}
    (pols : List StoragePoolSpec) :
    poolLoop toLower tags pols = Outcome.panic ↔
      ∃ pre q rest, pols = pre ++ q :: rest ∧
        (∀ x ∈ pre, isSupported toLower tags x = some false) ∧
        isSupported toLower tags q = none := by
  induction pols with
  | nil => simp [poolLoop]
  | cons q qs ih =>
    rw [poolLoop]
    cases h : isSupported toLower tags q with
    | none =>
      simp only [true_iff]
      exact ⟨[], q, qs, rfl, by simp, h⟩
    | some b =>
      cases b with
      | true =>
        constructor
        · intro h0; cases h0
        rintro ⟨pre, x, rest, heq, hpre, hx⟩
        cases pre with
        | nil =>
          simp only [List.nil_append, List.cons.injEq] at heq
          rw [heq.1, hx] at h; cases h
        | cons y ys =>
          simp only [List.cons_append, List.cons.injEq] at heq
          have := hpre y (List.mem_cons_self _ _)
          rw [← heq.1, h] at this; cases this
      | false =>
        simp only [ih]
        constructor
        · rintro ⟨pre, x, rest, heq, hpre, hx⟩
          refine ⟨q :: pre, x, rest, by simp [heq], ?_, hx⟩
          intro y hy
          rcases List.mem_cons.mp hy with rfl | hy
          · exact h
          · exact hpre y hy
        · rintro ⟨pre, x, rest, heq, hpre, hx⟩
          cases pre with
          | nil =>
            simp only [List.nil_append, List.cons.injEq] at heq
            rw [heq.1, hx] at h; cases h
          | cons y ys =>
            simp only [List.cons_append, List.cons.injEq] at heq
            exact ⟨ys, x, rest, heq.2, fun z hz => hpre z (List.mem_cons_of_mem _ hz), hx⟩

theorem poolLoop_first {toLower : String → String} {tags : Params}
    (pre : List StoragePoolSpec) (P : StoragePoolSpec) (rest : List StoragePoolSpec)
    (hpre : ∀ q ∈ pre, isSupported toLower tags q ≠ none)
    (hP : isSupported toLower tags P = some true) :
    ∃ r pre1 rest1, poolLoop toLower tags (pre ++ P :: rest) = Outcome.ok r ∧
      pre ++ P :: rest = pre1 ++ r :: rest1 ∧ pre1.length ≤ pre.length ∧
      isSupported toLower tags r = some true := by
  induction pre with
  | nil =>
    refine ⟨P, [], rest, ?_, rfl, Nat.le_refl _, hP⟩
    simp [poolLoop, hP]
  | cons q qs ih =>
    obtain ⟨r, pre1, rest1, h1, h2, h3, h4⟩ :=
      ih (fun x hx => hpre x (List.mem_cons_of_mem _ hx))
    cases hq : isSupported toLower tags q with
    | none => exact absurd hq (hpre q (List.mem_cons_self _ _))
    | some b =>
      cases b with
      | true =>
        refine ⟨q, [], qs ++ P :: rest, ?_, rfl, Nat.zero_le _, hq⟩
        simp [poolLoop, hq]
      | false =>
        refine ⟨r, q :: pre1, rest1, ?_, ?_, ?_, h4⟩
        · simp only [List.cons_append, poolLoop, hq]
          exact h1
        · simp only [List.cons_append, h2]
        · simp only [List.length_cons]
          omega

theorem specMatches_accepts {toLower : String → String} {tags : Params}
    {pol : StoragePoolSpec} (h : specMatches toLower tags pol) :
    accepts toLower tags pol :=
  fun k hk => ⟨(h k hk).1, (h k hk).2.2⟩

theorem accepts_tagsTyped {toLower : String → String} {tags : Params}
    {pol : StoragePoolSpec} (h : accepts toLower tags pol) :
    tagsTyped toLower tags := by
  intro k hk hc
  obtain ⟨a, _, ha, _, _⟩ := (h k hk).2 hc
  exact ⟨a, ha⟩

theorem tagStep_panic_of {toLower : String → String} {tags : Params}
    {pol : StoragePoolSpec} {k : String} (hk : hasKey pol k)
    (hc : ceilingKey toLower k) (hbad : illTyped tags pol k) (s : Bool) :
    tagStep toLower tags pol s k = Step.panic := by
  unfold tagStep
  split
  · rename_i hp
    simp [hasKey, hp] at hk
  · rename_i p hp
    have hnd : toLower k ≠ "diskType" := by
      rcases hc with h | h <;> rw [h] <;> decide
    have hc1 : toLower k = "iops" ∨ toLower k = "latency" := hc
    rw [if_neg hnd, if_pos hc1]
    have hg : intGt (index tags k) p = none := by
      rw [intGt_eq_none]
      rintro ⟨ha, b, hb⟩
      exact hbad ⟨ha, b, by rw [hp, hb]⟩
    rw [hg]

theorem tagLoop_eq_none_of {toLower : String → String} {tags : Params}
    {pol : StoragePoolSpec} (ks : List String) (hall : ∀ k ∈ ks, hasKey pol k)
    (hbad : ∃ k ∈ ks, ceilingKey toLower k ∧ illTyped tags pol k) (s : Bool) :
    tagLoop toLower tags pol ks s = none := by
  induction ks generalizing s with
  | nil =>
    obtain ⟨k, hk, _⟩ := hbad
    cases hk
  | cons k ks ih =>
    rw [tagLoop]
    cases hs : tagStep toLower tags pol s k with
    | panic => rfl
    | brk s1 =>
      have hn := (tagStep_brk hs).2
      have hk := hall k (List.mem_cons_self _ _)
      simp [hasKey, hn] at hk
    | next s1 =>
      obtain ⟨k1, hk1, hc, hill⟩ := hbad
      rcases List.mem_cons.mp hk1 with rfl | hk1
      · rw [tagStep_panic_of (hall k1 (List.mem_cons_self _ _)) hc hill s] at hs
        cases hs
      · exact ih (fun x hx => hall x (List.mem_cons_of_mem _ hx)) ⟨k1, hk1, hc, hill⟩ s1

/-! ## Lemmas on the profile loop and the dock loop -/

theorem findDefault_append (pre : List ProfileSpec) (p : ProfileSpec)
    (rest : List ProfileSpec) (hp : p.Name = "default")
    (hpre : ∀ q ∈ pre, q.Name ≠ "default") :
    findDefault (pre ++ p :: rest) = Outcome.ok p := by
  induction pre with
  | nil => simp [findDefault, hp]
  | cons q qs ih =>
    have hq := hpre q (List.mem_cons_self _ _)
    simp only [List.cons_append, findDefault, if_neg hq]
    exact ih (fun x hx => hpre x (List.mem_cons_of_mem _ hx))

theorem findDefault_error (prfs : List ProfileSpec) (e : Err) :
    findDefault prfs = Outcome.error e ↔
      e = noDefaultProfile ∧ ∀ q ∈ prfs, q.Name ≠ "default" := by
  induction prfs with
  | nil => simp [findDefault, eq_comm]
  | cons q qs ih =>
    rw [findDefault]
    split_ifs with h
    · simp [h]
    · simp [h, ih]

theorem dockLoop_some (nilDockId : Option String) (pol : StoragePoolSpec)
    (dcks : List DockSpec) :
    dockLoop nilDockId (some pol) dcks =
      match firstDock pol.DockId dcks with
      | some d => Outcome.ok d
      | none => Outcome.error noSupportedDock := by
  induction dcks with
  | nil => simp [dockLoop, firstDock]
  | cons d ds ih =>
    simp only [dockLoop, GetDockId, firstDock, List.find?_cons]
    by_cases h : d.Id = pol.DockId
    · simp [h]
    · simp only [h, if_false, decide_False]
      exact ih

/-! ## Lemmas on maps and on the order of the keys -/

theorem lookup_eq_some_iff_mem (l : Params) (hnd : (keys l).Nodup) (k : String)
    (v : Value) : l.lookup k = some v ↔ (k, v) ∈ l := by
  induction l with
  | nil => simp
  | cons e t ih =>
    obtain ⟨k0, v0⟩ := e
    simp only [keys, List.map_cons, List.nodup_cons, List.mem_map, not_exists, not_and] at hnd
    rw [List.lookup_cons]
    by_cases hk : k = k0
    · subst hk
      simp only [beq_self_eq_true, List.mem_cons, Prod.mk.injEq, true_and, Option.some.injEq]
      constructor
      · intro h; exact Or.inl h.symm
      · rintro (h | h)
        · exact h.symm
        · exact absurd rfl (hnd.1 (k, v) h)
    · have hb : (k == k0) = false := by simpa using hk
      simp only [hb, List.mem_cons, Prod.mk.injEq, hk, false_and, false_or]
      exact ih hnd.2

theorem index_perm {l1 l2 : Params} (hp : List.Perm l1 l2) (hnd : (keys l2).Nodup)
    (k : String) : index l1 k = index l2 k := by
  have hnd1 : (keys l1).Nodup := (List.Perm.map Prod.fst hp).nodup_iff.mpr hnd
  have hl : l1.lookup k = l2.lookup k := by
    apply Option.ext
    intro v
    simp only [Option.mem_def]
    rw [lookup_eq_some_iff_mem l1 hnd1, lookup_eq_some_iff_mem l2 hnd]
    exact hp.mem_iff
  simp only [index, hl]

theorem tagStep_congr {toLower : String → String} {t1 t2 : Params}
    (h : ∀ k, index t1 k = index t2 k) (pol : StoragePoolSpec) (s : Bool) (k : String) :
    tagStep toLower t1 pol s k = tagStep toLower t2 pol s k := by
  simp only [tagStep, h k]

theorem tagLoop_congr {toLower : String → String} {t1 t2 : Params}
    (h : ∀ k, index t1 k = index t2 k) (pol : StoragePoolSpec) (ks : List String)
    (s : Bool) : tagLoop toLower t1 pol ks s = tagLoop toLower t2 pol ks s := by
  induction ks generalizing s with
  | nil => rfl
  | cons k ks ih =>
    simp only [tagLoop, tagStep_congr h]
    cases tagStep toLower t2 pol s k with
    | next s1 => exact ih s1
    | brk s1 => rfl
    | panic => rfl

theorem tagLoop_perm {toLower : String → String} {tags : Params} {pol : StoragePoolSpec}
    {ks1 ks2 : List String} (hp : List.Perm ks1 ks2)
    (hno : ∀ k ∈ ks2, ∀ s, tagStep toLower tags pol s k ≠ Step.panic) :
    tagLoop toLower tags pol ks1 true = tagLoop toLower tags pol ks2 true := by
  have h1 : tagLoop toLower tags pol ks1 true ≠ none :=
    tagLoop_ne_none ks1 (fun k hk s => hno k (hp.mem_iff.mp hk) s) true
  have h2 : tagLoop toLower tags pol ks2 true ≠ none := tagLoop_ne_none ks2 hno true
  have hiff : tagLoop toLower tags pol ks1 true = some true ↔
      tagLoop toLower tags pol ks2 true = some true := by
    rw [tagLoop_eq_true, tagLoop_eq_true]
    constructor
    · rintro ⟨_, h⟩
      exact ⟨rfl, fun k hk => h k (hp.mem_iff.mpr hk)⟩
    · rintro ⟨_, h⟩
      exact ⟨rfl, fun k hk => h k (hp.mem_iff.mp hk)⟩
  cases hb1 : tagLoop toLower tags pol ks1 true with
  | none => exact absurd hb1 h1
  | some b1 =>
    cases hb2 : tagLoop toLower tags pol ks2 true with
    | none => exact absurd hb2 h2
    | some b2 =>
      rw [hb1, hb2] at hiff
      cases b1 <;> cases b2 <;> simp at hiff ⊢

theorem poolLoop_congr {toLower : String → String} {t1 t2 : Params}
    (pols : List StoragePoolSpec)
    (h : ∀ pol ∈ pols, isSupported toLower t1 pol = isSupported toLower t2 pol) :
    poolLoop toLower t1 pols = poolLoop toLower t2 pols := by
  induction pols with
  | nil => rfl
  | cons q qs ih =>
    simp only [poolLoop, h q (List.mem_cons_self _ _)]
    cases isSupported toLower t2 q with
    | none => rfl
    | some b =>
      cases b with
      | true => rfl
      | false => exact ih (fun x hx => h x (List.mem_cons_of_mem _ hx))

theorem poolLoop_find {toLower : String → String} {tags : Params}
    (f : StoragePoolSpec → Bool) (pols : List StoragePoolSpec)
    (h : ∀ pol ∈ pols, isSupported toLower tags pol = some (f pol)) :
    poolLoop toLower tags pols =
      match pols.find? f with
      | some pol => Outcome.ok pol
      | none => Outcome.error noSupportedPool := by
  induction pols with
  | nil => rfl
  | cons q qs ih =>
    have hq := h q (List.mem_cons_self _ _)
    simp only [poolLoop, hq, List.find?_cons]
    cases hf : f q with
    | true => rfl
    | false => exact ih (fun x hx => h x (List.mem_cons_of_mem _ hx))

theorem poolLoop_total {toLower : String → String} {tags : Params}
    (pols : List StoragePoolSpec)
    (h : ∀ pol ∈ pols, isSupported toLower tags pol ≠ none) :
    (∃ pol ∈ pols, poolLoop toLower tags pols = Outcome.ok pol) ∨
      poolLoop toLower tags pols = Outcome.error noSupportedPool := by
  induction pols with
  | nil => exact Or.inr rfl
  | cons q qs ih =>
    rw [poolLoop]
    cases hq : isSupported toLower tags q with
    | none => exact absurd hq (h q (List.mem_cons_self _ _))
    | some b =>
      cases b with
      | true => exact Or.inl ⟨q, List.mem_cons_self _ _, rfl⟩
      | false =>
        rcases ih (fun x hx => h x (List.mem_cons_of_mem _ hx)) with ⟨r, hr, hsel⟩ | hsel
        · exact Or.inl ⟨r, List.mem_cons_of_mem _ hr, hsel⟩
        · exact Or.inr hsel

theorem poolLoop_not_later {toLower : String → String} {tags : Params}
    (pre : List StoragePoolSpec) (r : StoragePoolSpec) (rest : List StoragePoolSpec)
    (hpre : ∀ q ∈ pre, isSupported toLower tags q ≠ none)
    (hr : isSupported toLower tags r = some true) :
    ∃ pre1 r1 rest1, poolLoop toLower tags (pre ++ r :: rest) = Outcome.ok r1 ∧
      pre ++ r :: rest = pre1 ++ r1 :: rest1 ∧
      (∀ q ∈ pre1, isSupported toLower tags q = some false) ∧
      pre1.length ≤ pre.length := by
  induction pre with
  | nil =>
    refine ⟨[], r, rest, ?_, rfl, ?_, Nat.le_refl _⟩
    · simp [poolLoop, hr]
    · intro q hq
      cases hq
  | cons q qs ih =>
    obtain ⟨pre1, r1, rest1, h1, h2, h3, h4⟩ :=
      ih (fun x hx => hpre x (List.mem_cons_of_mem _ hx))
    cases hq : isSupported toLower tags q with
    | none => exact absurd hq (hpre q (List.mem_cons_self _ _))
    | some b =>
      cases b with
      | true =>
        refine ⟨[], q, qs ++ r :: rest, ?_, rfl, ?_, Nat.zero_le _⟩
        · simp [poolLoop, hq]
        · intro x hx
          cases hx
      | false =>
        refine ⟨q :: pre1, r1, rest1, ?_, ?_, ?_, ?_⟩
        · simp only [List.cons_append, poolLoop, hq]
          exact h1
        · simp only [List.cons_append, h2]
        · intro x hx
          rcases List.mem_cons.mp hx with rfl | hx
          · exact hq
          · exact h3 x hx
        · simp only [List.length_cons]
          omega

theorem accepts_of_extend {toLower : String → String} {T T2 : Params}
    {pol : StoragePoolSpec} (hext : tagsExtend T T2) (h : accepts toLower T2 pol) :
    accepts toLower T pol := by
  intro k hk
  obtain ⟨hk2, hidx⟩ := hext k hk
  refine ⟨(h k hk2).1, fun hc => ?_⟩
  obtain ⟨a, b, ha, hb, hab⟩ := (h k hk2).2 hc
  exact ⟨a, b, by rw [← hidx, ha], hb, hab⟩

theorem tagsTyped_of_extend {toLower : String → String} {T T2 : Params}
    (hext : tagsExtend T T2) (h : tagsTyped toLower T2) : tagsTyped toLower T := by
  intro k hk hc
  obtain ⟨hk2, hidx⟩ := hext k hk
  obtain ⟨a, ha⟩ := h k hk2 hc
  exact ⟨a, by rw [← hidx, ha]⟩

theorem poolTyped_of_extend {toLower : String → String} {T T2 : Params}
    {pol : StoragePoolSpec} (hext : tagsExtend T T2) (h : poolTyped toLower T2 pol) :
    poolTyped toLower T pol :=
  fun k hk hc p hp => h k (hext k hk).1 hc p hp

/-! ## SelectSupportedPool: the properties -/

/-- C1 (the code departs from the claim). The claim asks that a pool whose
diskType parameter differs from the desired value is never returned. The
switch compares the lower-cased key, "disktype", with the literal "diskType",
so the string comparison is never reached: against the inventory that holds
only the pool pl1 (diskType "ssd") the request with diskType "hdd" returns pl1
instead of failing, and the request with diskType "ssd" is answered with the
pool plHdd (diskType "hdd") when that pool comes first. -/
theorem diskType_mismatch_is_selected :
    asciiToLower "diskType" = "disktype" ∧
    SelectSupportedPool asciiToLower (poolClient [pl1]) [("diskType", Value.str "hdd")]
      = Outcome.ok pl1 ∧
    SelectSupportedPool asciiToLower (poolClient [plHdd, pl1]) [("diskType", Value.str "ssd")]
      = Outcome.ok plHdd := by
  refine ⟨by decide, by decide, by decide⟩

/-- C2. A pool returned by SelectSupportedPool satisfies desired value <= pool
value under every tag key that lower-cases to "iops" or "latency". With
integer values, a pool for which some such tag has desired value > pool value
ends the tag loop with isSupported false, whatever tags are visited after it,
and is not returned. Desired 100 against the ceiling 200 matches, 300 does
not, 200 matches; the same holds for "latency", and a failed comparison is
not undone by a later tag. -/
theorem selectSupportedPool_ceiling :
    (∀ (toLower : String → String) (c : Client) (tags : Params) (pol : StoragePoolSpec),
      SelectSupportedPool toLower c tags = Outcome.ok pol →
      ∀ k ∈ keys tags, ceilingKey toLower k → withinCeiling tags pol k) ∧
    (∀ (toLower : String → String) (c : Client) (tags : Params) (pol : StoragePoolSpec),
      LowerCased toLower → tagsTyped toLower tags → poolTyped toLower tags pol →
      (∃ k ∈ keys tags, ceilingKey toLower k ∧ aboveCeiling tags pol k) →
      isSupported toLower tags pol = some false ∧
        SelectSupportedPool toLower c tags ≠ Outcome.ok pol) ∧
    SelectSupportedPool asciiToLower (poolClient [pl200]) [("iops", Value.int 100)]
      = Outcome.ok pl200 ∧
    SelectSupportedPool asciiToLower (poolClient [pl200]) [("iops", Value.int 300)]
      = Outcome.error noSupportedPool ∧
    SelectSupportedPool asciiToLower (poolClient [pl200]) [("iops", Value.int 200)]
      = Outcome.ok pl200 ∧
    SelectSupportedPool asciiToLower (poolClient [pl200]) [("latency", Value.int 100)]
      = Outcome.ok pl200 ∧
    SelectSupportedPool asciiToLower (poolClient [pl200]) [("latency", Value.int 300)]
      = Outcome.error noSupportedPool ∧
    SelectSupportedPool asciiToLower (poolClient [pl200]) [("latency", Value.int 200)]
      = Outcome.ok pl200 ∧
    SelectSupportedPool asciiToLower (poolClient [pl200])
      [("iops", Value.int 300), ("zone", Value.str "z1"), ("latency", Value.int 1)]
      = Outcome.error noSupportedPool := by
  have key : ∀ (toLower : String → String) (c : Client) (tags : Params)
      (pol : StoragePoolSpec), SelectSupportedPool toLower c tags = Outcome.ok pol →
      ∀ k ∈ keys tags, ceilingKey toLower k → withinCeiling tags pol k := by
    intro toLower c tags pol h k hk hc
    unfold SelectSupportedPool at h
    split at h
    · cases h
    · obtain ⟨_, _, _, _, hpol⟩ := (poolLoop_ok _ pol).mp h
      exact (isSupported_true_accepts hpol k hk).2 hc
  refine ⟨key, ?_, by decide, by decide, by decide, by decide, by decide, by decide,
    by decide⟩
  intro toLower c tags pol hlow ht hp ⟨k, hk, hc, a, b, ha, hb, hab⟩
  have hno : ¬ accepts toLower tags pol := by
    intro hacc
    obtain ⟨a1, b1, ha1, hb1, hab1⟩ := (hacc k hk).2 hc
    rw [ha] at ha1
    rw [hb] at hb1
    cases ha1
    cases hb1
    omega
  refine ⟨(isSupported_eq_false_iff hlow ht hp).mpr hno, ?_⟩
  intro h
  obtain ⟨a1, b1, ha1, hb1, hab1⟩ := key toLower c tags pol h k hk hc
  rw [ha] at ha1
  rw [hb] at hb1
  cases ha1
  cases hb1
  omega

/-- Witness for C2: the pool pl200 is returned for the desired tags iops 100,
latency 200, and both values are within its ceilings. -/
theorem selectSupportedPool_ceiling_witness :
    withinCeiling [("iops", Value.int 100), ("latency", Value.int 200)] pl200 "iops" ∧
    withinCeiling [("iops", Value.int 100), ("latency", Value.int 200)] pl200 "latency" :=
  ⟨selectSupportedPool_ceiling.1 asciiToLower (poolClient [pl200])
      [("iops", Value.int 100), ("latency", Value.int 200)] pl200 (by decide)
      "iops" (by decide) (Or.inl (by decide)),
    selectSupportedPool_ceiling.1 asciiToLower (poolClient [pl200])
      [("iops", Value.int 100), ("latency", Value.int 200)] pl200 (by decide)
      "latency" (by decide) (Or.inr (by decide))⟩


/-- C3, the claim as stated fails: the pool pl200 is in the inventory and
satisfies every rule for the desired tag iops 100, but the pool plBad before
it stores a string under "iops", and SelectSupportedPool panics instead of
returning pl200 or an earlier matching pool. -/
theorem selectSupportedPool_matching_pool_panics :
    pl200 ∈ [plBad, pl200] ∧
    specMatches asciiToLower [("iops", Value.int 100)] pl200 ∧
    SelectSupportedPool asciiToLower (poolClient [plBad, pl200]) [("iops", Value.int 100)]
      = Outcome.panic := by
  refine ⟨by decide, ?_, by decide⟩
  intro k hk
  simp only [keys, List.map_cons, List.map_nil, List.mem_singleton] at hk
  subst hk
  refine ⟨by decide, fun h => absurd h (by decide), fun _ => ?_⟩
  exact ⟨100, 200, by decide, by decide, by decide⟩

/-- C3 as amended. When the pools before P store integers under the tag keys
that lower-case to "iops" or "latency", and P has every tag key and satisfies
every rule of the specification, SelectSupportedPool succeeds and returns P
or a pool at an earlier position of the inventory; the returned pool has
every tag key and is within the ceiling under every "iops" or "latency" tag. -/
theorem selectSupportedPool_returns_matching_or_earlier
    (toLower : String → String) (hlow : LowerCased toLower) (c : Client) (tags : Params)
    (pre : List StoragePoolSpec) (P : StoragePoolSpec) (rest : List StoragePoolSpec)
    (hlist : c.ListPools = Except.ok (pre ++ P :: rest))
    (htyped : ∀ q ∈ pre, poolTyped toLower tags q)
    (hP : specMatches toLower tags P) :
    ∃ r pre1 rest1, SelectSupportedPool toLower c tags = Outcome.ok r ∧
      pre ++ P :: rest = pre1 ++ r :: rest1 ∧ pre1.length ≤ pre.length ∧
      accepts toLower tags r := by
  have hacc := specMatches_accepts hP
  have ht := accepts_tagsTyped hacc
  obtain ⟨r, pre1, rest1, h1, h2, h3, h4⟩ :=
    poolLoop_first pre P rest
      (fun q hq => isSupported_ne_none hlow ht (htyped q hq))
      ((isSupported_eq_true_iff hlow).mpr hacc)
  refine ⟨r, pre1, rest1, ?_, h2, h3, isSupported_true_accepts h4⟩
  simp only [SelectSupportedPool, hlist]
  exact h1

/-- Witness for C3 as amended: the scenario pool pl1 after the pool plHdd,
which lacks the key "iops"; the request diskType "ssd", iops 100. -/
theorem selectSupportedPool_returns_matching_or_earlier_witness :
    ∃ r pre1 rest1,
      SelectSupportedPool asciiToLower (poolClient [plHdd, pl1])
        [("diskType", Value.str "ssd"), ("iops", Value.int 100)] = Outcome.ok r ∧
      [plHdd] ++ pl1 :: [] = pre1 ++ r :: rest1 ∧ pre1.length ≤ [plHdd].length ∧
      accepts asciiToLower [("diskType", Value.str "ssd"), ("iops", Value.int 100)] r := by
  refine selectSupportedPool_returns_matching_or_earlier asciiToLower
    asciiToLower_lowerCased (poolClient [plHdd, pl1])
    [("diskType", Value.str "ssd"), ("iops", Value.int 100)] [plHdd] pl1 [] rfl ?_ ?_
  · intro q hq k hk hc p hp
    simp only [List.mem_singleton] at hq
    subst hq
    simp only [keys, List.map_cons, List.map_nil, List.mem_cons, List.mem_singleton,
      List.not_mem_nil, or_false] at hk
    rcases hk with rfl | rfl
    · exact absurd hc (by decide)
    · simp [plHdd, List.lookup] at hp
  · intro k hk
    simp only [keys, List.map_cons, List.map_nil, List.mem_cons, List.mem_singleton,
      List.not_mem_nil, or_false] at hk
    rcases hk with rfl | rfl
    · refine ⟨by decide, fun _ => ⟨"ssd", by decide, by decide⟩, fun h => ?_⟩
      rcases h with h | h <;> exact absurd h (by decide)
    · refine ⟨by decide, fun h => absurd h (by decide), fun _ => ?_⟩
      exact ⟨100, 500, by decide, by decide, by decide⟩

/-- C4. Every pool returned by SelectSupportedPool is a pool of the inventory
whose parameters contain every desired tag key, compared as exact map keys; a
pool that lacks one of the tag keys never ends the tag loop with isSupported
true and is not returned. -/
theorem selectSupportedPool_has_every_key
    (toLower : String → String) (c : Client) (tags : Params) (pol : StoragePoolSpec) :
    (SelectSupportedPool toLower c tags = Outcome.ok pol →
      (∃ pols, c.ListPools = Except.ok pols ∧ pol ∈ pols) ∧
      ∀ k ∈ keys tags, hasKey pol k) ∧
    ((∃ k ∈ keys tags, ¬ hasKey pol k) →
      isSupported toLower tags pol ≠ some true ∧
      SelectSupportedPool toLower c tags ≠ Outcome.ok pol) := by
  have key : SelectSupportedPool toLower c tags = Outcome.ok pol →
      (∃ pols, c.ListPools = Except.ok pols ∧ pol ∈ pols) ∧
      ∀ k ∈ keys tags, hasKey pol k := by
    intro h
    unfold SelectSupportedPool at h
    split at h
    · cases h
    · rename_i pols hl
      obtain ⟨pre, rest, heq, _, hpol⟩ := (poolLoop_ok pols pol).mp h
      refine ⟨⟨pols, hl, ?_⟩, fun k hk => (isSupported_true_accepts hpol k hk).1⟩
      rw [heq]
      simp
  refine ⟨key, ?_⟩
  rintro ⟨k, hk, hno⟩
  exact ⟨fun h => hno ((isSupported_true_accepts h k hk).1),
    fun h => hno ((key h).2 k hk)⟩

/-- Witness for C4: the pool pl1 is returned for the keys "diskType" and
"iops" and has both; for the key "DiskType", which differs in case from the
key of pl1, the pool is not returned. -/
theorem selectSupportedPool_has_every_key_witness :
    ((∃ pols, (poolClient [pl1]).ListPools = Except.ok pols ∧ pl1 ∈ pols) ∧
      ∀ k ∈ keys [("diskType", Value.str "ssd"), ("iops", Value.int 100)], hasKey pl1 k) ∧
    (isSupported asciiToLower [("DiskType", Value.str "ssd")] pl1 ≠ some true ∧
      SelectSupportedPool asciiToLower (poolClient [pl1]) [("DiskType", Value.str "ssd")]
        ≠ Outcome.ok pl1) :=
  ⟨(selectSupportedPool_has_every_key asciiToLower (poolClient [pl1])
      [("diskType", Value.str "ssd"), ("iops", Value.int 100)] pl1).1 (by decide),
    (selectSupportedPool_has_every_key asciiToLower (poolClient [pl1])
      [("DiskType", Value.str "ssd")] pl1).2 ⟨"DiskType", by decide, by decide⟩⟩

/-- C5, the claim as stated fails: the desired value under "iops" is a string
and the pool stores an int; SelectSupportedPool panics at the type assertion
and returns no error. -/
theorem selectSupportedPool_type_mismatch_no_error :
    SelectSupportedPool asciiToLower (poolClient [pl200]) [("iops", Value.str "fast")]
      = Outcome.panic ∧
    ¬ ∃ e, SelectSupportedPool asciiToLower (poolClient [pl200])
      [("iops", Value.str "fast")] = Outcome.error e := by
  refine ⟨by decide, ?_⟩
  rintro ⟨e, he⟩
  have h : SelectSupportedPool asciiToLower (poolClient [pl200])
      [("iops", Value.str "fast")] = Outcome.panic := by decide
  rw [h] at he
  cases he

/-- C5 as amended. When a pool has every tag key, every pool before it has
been rejected, and under some tag key that lower-cases to "iops" or "latency"
the tag value or the parameter of the pool is not an int, SelectSupportedPool
aborts with a run-time panic. It returns no type-mismatch error: an error it
returns is the failure of ListPools or the "no pool supported" error. -/
theorem selectSupportedPool_type_mismatch_panics :
    (∀ (toLower : String → String) (c : Client) (tags : Params)
      (pre : List StoragePoolSpec) (q : StoragePoolSpec) (rest : List StoragePoolSpec),
      c.ListPools = Except.ok (pre ++ q :: rest) →
      (∀ x ∈ pre, isSupported toLower tags x = some false) →
      (∀ k ∈ keys tags, hasKey q k) →
      (∃ k ∈ keys tags, ceilingKey toLower k ∧ illTyped tags q k) →
      SelectSupportedPool toLower c tags = Outcome.panic) ∧
    (∀ (toLower : String → String) (c : Client) (tags : Params) (e : Err),
      SelectSupportedPool toLower c tags = Outcome.error e →
      e = noSupportedPool ∨ c.ListPools = Except.error e) := by
  constructor
  · intro toLower c tags pre q rest hl hpre hall hbad
    simp only [SelectSupportedPool, hl]
    exact (poolLoop_panic _).mpr
      ⟨pre, q, rest, rfl, hpre, tagLoop_eq_none_of (keys tags) hall hbad true⟩
  · intro toLower c tags e h
    unfold SelectSupportedPool at h
    split at h
    · rename_i err hl
      cases h
      exact Or.inr hl
    · exact Or.inl ((poolLoop_error _ e).mp h).1

/-- Witness for C5 as amended: the pool plHdd lacks the key "iops" and is
rejected; the pool plBad after it stores a string under "iops". -/
theorem selectSupportedPool_type_mismatch_panics_witness :
    SelectSupportedPool asciiToLower (poolClient [plHdd, plBad]) [("iops", Value.int 5)]
      = Outcome.panic :=
  selectSupportedPool_type_mismatch_panics.1 asciiToLower (poolClient [plHdd, plBad])
    [("iops", Value.int 5)] [plHdd] plBad [] rfl (by decide) (by decide)
    ⟨"iops", by decide, by decide, fun h => by
      obtain ⟨_, b, hb⟩ := h
      simp [plBad, List.lookup] at hb⟩

/-! ## SelectProfile: the properties -/

/-- C6. When the profile list holds exactly one profile named "default", at any
position and among any other profiles, SelectProfile with the empty identifier
succeeds and returns that profile. -/
theorem selectProfile_returns_the_default (c : Client)
    (pre : List ProfileSpec) (p : ProfileSpec) (rest : List ProfileSpec)
    (hlist : c.ListProfiles = Except.ok (pre ++ p :: rest))
    (hp : p.Name = "default")
    (honly : ∀ q ∈ pre ++ rest, q.Name ≠ "default") :
    SelectProfile c "" = Outcome.ok p := by
  simp only [SelectProfile, if_true, hlist]
  exact findDefault_append pre p rest hp
    (fun q hq => honly q (List.mem_append_left _ hq))

/-- Witness for C6: the default profile p1 in the middle of the list. -/
theorem selectProfile_returns_the_default_witness :
    SelectProfile (fakeClient (prfNear ++ p1 :: [prfGold]) [] [] []) "" = Outcome.ok p1 :=
  selectProfile_returns_the_default (fakeClient (prfNear ++ p1 :: [prfGold]) [] [] [])
    prfNear p1 [prfGold] rfl (by decide) (by decide)

/-- C7. When listing the profiles succeeds, SelectProfile with the empty
identifier fails with the "no default profile" error if and only if no profile
of the list is named exactly "default"; it returns no other error. -/
theorem selectProfile_no_default_iff (c : Client) (prfs : List ProfileSpec)
    (hlist : c.ListProfiles = Except.ok prfs) :
    (SelectProfile c "" = Outcome.error noDefaultProfile ↔
      ∀ p ∈ prfs, p.Name ≠ "default") ∧
    (∀ e, SelectProfile c "" = Outcome.error e → e = noDefaultProfile) := by
  have hsel : SelectProfile c "" = findDefault prfs := by
    simp only [SelectProfile, if_true, hlist]
  rw [hsel]
  refine ⟨?_, fun e h => ((findDefault_error prfs e).mp h).1⟩
  rw [findDefault_error]
  exact ⟨fun h => h.2, fun h => ⟨rfl, h⟩⟩

/-- Witness for C7: the names "Default" and "default " do not count, and the
empty list has no default profile. -/
theorem selectProfile_no_default_iff_witness :
    SelectProfile (fakeClient prfNear [] [] []) "" = Outcome.error noDefaultProfile ∧
    SelectProfile (fakeClient [] [] [] []) "" = Outcome.error noDefaultProfile :=
  ⟨(selectProfile_no_default_iff (fakeClient prfNear [] [] []) prfNear rfl).1.mpr
      (by decide),
    (selectProfile_no_default_iff (fakeClient [] [] [] []) [] rfl).1.mpr (by decide)⟩

/-- C8. For a non-empty profile identifier SelectProfile returns what GetProfile
answers for that identifier, the profile or the error, whatever the profile
list is and whether or not listing the profiles would succeed. -/
theorem selectProfile_by_identifier (c : Client) (prfID : String) (hid : prfID ≠ "")
    (listing : Except Err (List ProfileSpec)) :
    (∀ p, c.GetProfile prfID = Except.ok p →
      SelectProfile { c with ListProfiles := listing } prfID = Outcome.ok p) ∧
    (∀ e, c.GetProfile prfID = Except.error e →
      SelectProfile { c with ListProfiles := listing } prfID = Outcome.error e) := by
  constructor
  · intro p h
    simp [SelectProfile, hid, h, ofExcept]
  · intro e h
    simp [SelectProfile, hid, h, ofExcept]

/-- Witness for C8: the profile "p2" is found although a default profile
exists, and also when listing the profiles would fail; the absent identifier
"p9" gets the error of GetProfile. -/
theorem selectProfile_by_identifier_witness :
    SelectProfile { fakeClient [p1, prfGold] [] [] [] with
      ListProfiles := Except.error (Err.db "down") } "p2" = Outcome.ok prfGold ∧
    SelectProfile { fakeClient [p1, prfGold] [] [] [] with
      ListProfiles := Except.ok [p1] } "p9" = Outcome.error (Err.db "profile not found") :=
  ⟨(selectProfile_by_identifier (fakeClient [p1, prfGold] [] [] []) "p2" (by decide)
      (Except.error (Err.db "down"))).1 prfGold rfl,
    (selectProfile_by_identifier (fakeClient [p1, prfGold] [] [] []) "p9" (by decide)
      (Except.ok [p1])).2 (Err.db "profile not found") rfl⟩

/-! ## SelectDock: the properties -/

/-- C9. For a volume identifier whose volume exists, whose pool exists and whose
pool names a dock of the inventory, SelectDock succeeds and returns a dock of
the inventory whose identifier is the dock identifier of that pool. -/
theorem selectDock_of_volume (nilDockId : Option String) (c : Client) (volID : String)
    (vol : VolumeSpec) (pol : StoragePoolSpec) (dcks : List DockSpec)
    (hdocks : c.ListDocks = Except.ok dcks)
    (hvol : c.GetVolume volID = Except.ok vol)
    (hpool : c.GetPool vol.PoolId = Except.ok pol)
    (hdock : ∃ d ∈ dcks, d.Id = pol.DockId) :
    ∃ d, SelectDock nilDockId c (DockInput.volumeId volID) = Outcome.ok d ∧
      d ∈ dcks ∧ d.Id = pol.DockId := by
  have hsel : SelectDock nilDockId c (DockInput.volumeId volID) =
      match firstDock pol.DockId dcks with
      | some d => Outcome.ok d
      | none => Outcome.error noSupportedDock := by
    simp only [SelectDock, hdocks, resolvePool, hvol, hpool, dockLoop_some]
  rw [hsel]
  cases hf : firstDock pol.DockId dcks with
  | none =>
    obtain ⟨d, hd, hid⟩ := hdock
    have := List.find?_eq_none.mp hf d hd
    simp [hid] at this
  | some d =>
    have hid := List.find?_some hf
    exact ⟨d, rfl, List.mem_of_find?_eq_some hf, by simpa using hid⟩

/-- Witness for C9: the volume v1 lives in the pool pl1, whose dock is d1. -/
theorem selectDock_of_volume_witness :
    ∃ d, SelectDock none (fakeClient [] [pl1] [d2, d1] [vol1]) (DockInput.volumeId "v1")
        = Outcome.ok d ∧ d ∈ [d2, d1] ∧ d.Id = pl1.DockId :=
  selectDock_of_volume none (fakeClient [] [pl1] [d2, d1] [vol1]) "v1" vol1 pl1 [d2, d1]
    rfl rfl rfl ⟨d1, by decide, by decide⟩

/-- C10. For a pool value SelectDock makes no lookup: the result is the first
dock of the inventory whose identifier is the dock identifier of the pool
(the "no dock supported" error when there is none), whatever GetVolume and
GetPool would answer. -/
theorem selectDock_of_pool (nilDockId : Option String) (c : Client)
    (pol : StoragePoolSpec) (dcks : List DockSpec)
    (hdocks : c.ListDocks = Except.ok dcks)
    (getVolume : String → Except Err VolumeSpec)
    (getPool : String → Except Err StoragePoolSpec) :
    SelectDock nilDockId { c with GetVolume := getVolume, GetPool := getPool }
      (DockInput.pool pol) =
      match firstDock pol.DockId dcks with
      | some d => Outcome.ok d
      | none => Outcome.error noSupportedDock := by
  have hlisted : ({ c with GetVolume := getVolume, GetPool := getPool } : Client).ListDocks
      = Except.ok dcks := hdocks
  unfold SelectDock
  rw [hlisted]
  simp only [resolvePool]
  exact dockLoop_some nilDockId pol dcks

/-- Witness for C10: the pool pl1 and a collaborator whose GetVolume and GetPool
always fail; the first of the two docks named "d1" is returned. -/
theorem selectDock_of_pool_witness :
    SelectDock none
      { fakeClient [] [] [d2, d1, ⟨"d1"⟩] [] with
        GetVolume := fun _ => Except.error (Err.db "down"),
        GetPool := fun _ => Except.error (Err.db "down") }
      (DockInput.pool pl1) = Outcome.ok d1 :=
  selectDock_of_pool none (fakeClient [] [] [d2, d1, ⟨"d1"⟩] [] ) pl1 [d2, d1, ⟨"d1"⟩] rfl
    (fun _ => Except.error (Err.db "down")) (fun _ => Except.error (Err.db "down"))

/-- C11. When listing the docks succeeds and the reference is a pool, or a
volume identifier that resolves to a volume and its pool, SelectDock fails with
the "no dock supported" error if and only if no dock of the inventory has the
dock identifier of the pool; it fails so for the empty inventory. -/
theorem selectDock_no_dock_iff (nilDockId : Option String) (c : Client)
    (pol : StoragePoolSpec) (dcks : List DockSpec)
    (hdocks : c.ListDocks = Except.ok dcks) :
    (SelectDock nilDockId c (DockInput.pool pol) = Outcome.error noSupportedDock ↔
      ∀ d ∈ dcks, d.Id ≠ pol.DockId) ∧
    (∀ (volID : String) (vol : VolumeSpec),
      c.GetVolume volID = Except.ok vol → c.GetPool vol.PoolId = Except.ok pol →
      (SelectDock nilDockId c (DockInput.volumeId volID) = Outcome.error noSupportedDock ↔
        ∀ d ∈ dcks, d.Id ≠ pol.DockId)) ∧
    (dcks = [] →
      SelectDock nilDockId c (DockInput.pool pol) = Outcome.error noSupportedDock) := by
  have hloop : (dockLoop nilDockId (some pol) dcks = Outcome.error noSupportedDock ↔
      ∀ d ∈ dcks, d.Id ≠ pol.DockId) := by
    rw [dockLoop_some]
    cases hf : firstDock pol.DockId dcks with
    | none =>
      simp only [true_iff]
      intro d hd
      have := List.find?_eq_none.mp hf d hd
      simpa using this
    | some d =>
      constructor
      · intro h; cases h
      · intro h
        have hid := List.find?_some hf
        exact absurd (by simpa using hid) (h d (List.mem_of_find?_eq_some hf))
  have hpool : SelectDock nilDockId c (DockInput.pool pol)
      = dockLoop nilDockId (some pol) dcks := by
    simp only [SelectDock, hdocks, resolvePool]
  refine ⟨by rw [hpool]; exact hloop, ?_, ?_⟩
  · intro volID vol hvol hp
    have hv : SelectDock nilDockId c (DockInput.volumeId volID)
        = dockLoop nilDockId (some pol) dcks := by
      simp only [SelectDock, hdocks, resolvePool, hvol, hp]
    rw [hv]
    exact hloop
  · intro hnil
    rw [hpool, hloop, hnil]
    intro d hd
    cases hd

/-- Witness for C11: the pool pl1 names the dock "d1"; the inventory holds
only the dock "d2", for the pool itself and for the volume v1 that lives in it. -/
theorem selectDock_no_dock_iff_witness :
    SelectDock none (fakeClient [] [pl1] [d2] [vol1]) (DockInput.pool pl1)
      = Outcome.error noSupportedDock ∧
    SelectDock none (fakeClient [] [pl1] [d2] [vol1]) (DockInput.volumeId "v1")
      = Outcome.error noSupportedDock :=
  ⟨(selectDock_no_dock_iff none (fakeClient [] [pl1] [d2] [vol1]) pl1 [d2] rfl).1.mpr
      (by decide),
    ((selectDock_no_dock_iff none (fakeClient [] [pl1] [d2] [vol1]) pl1 [d2] rfl).2.1
      "v1" vol1 rfl rfl).mpr (by decide)⟩

/-- C12 (the code departs from the claim). The claim asks for an
invalid-argument error for an input that is neither a string nor a pool. The
type switch has no case for such an input and leaves the variable pol nil:
with the empty dock inventory SelectDock returns the "no dock supported"
error; with a dock in the inventory it calls the getter on the nil pool, which
panics when the getter dereferences its receiver, and ends in the "no dock
supported" error when the getter answers the empty string. -/
theorem selectDock_other_input :
    (∀ (nilDockId : Option String) (v : Value),
      SelectDock nilDockId (fakeClient [] [] [] []) (DockInput.other v)
        = Outcome.error noSupportedDock) ∧
    SelectDock none (fakeClient [] [] [d1] []) (DockInput.other (Value.int 42))
      = Outcome.panic ∧
    SelectDock (some "") (fakeClient [] [] [d1] []) (DockInput.other (Value.int 42))
      = Outcome.error noSupportedDock := by
  refine ⟨fun nilDockId v => rfl, by decide, by decide⟩

/-- C13. A failure of the collaborator is passed on unchanged: of ListProfiles
by SelectProfile with the empty identifier, of GetProfile by SelectProfile with
a non-empty identifier, of ListPools by SelectSupportedPool for every tag set,
of ListDocks by SelectDock for every input. -/
theorem collaborator_failure_is_propagated (e : Err) :
    (∀ c : Client, c.ListProfiles = Except.error e →
      SelectProfile c "" = Outcome.error e) ∧
    (∀ (c : Client) (prfID : String), prfID ≠ "" → c.GetProfile prfID = Except.error e →
      SelectProfile c prfID = Outcome.error e) ∧
    (∀ (toLower : String → String) (c : Client) (tags : Params),
      c.ListPools = Except.error e → SelectSupportedPool toLower c tags = Outcome.error e) ∧
    (∀ (nilDockId : Option String) (c : Client) (input : DockInput),
      c.ListDocks = Except.error e → SelectDock nilDockId c input = Outcome.error e) := by
  refine ⟨?_, ?_, ?_, ?_⟩
  · intro c h
    simp only [SelectProfile, if_true, h]
  · intro c prfID hid h
    simp only [SelectProfile, if_neg hid, h, ofExcept]
  · intro toLower c tags h
    simp only [SelectSupportedPool, h]
  · intro nilDockId c input h
    simp only [SelectDock, h]

/-- Witness for C13: the collaborator whose every call fails with "down". -/
theorem collaborator_failure_is_propagated_witness :
    SelectProfile downClient "" = Outcome.error (Err.db "down") ∧
    SelectProfile downClient "p1" = Outcome.error (Err.db "down") ∧
    SelectSupportedPool asciiToLower downClient [("iops", Value.str "fast")]
      = Outcome.error (Err.db "down") ∧
    SelectDock none downClient (DockInput.other Value.nil) = Outcome.error (Err.db "down") :=
  ⟨(collaborator_failure_is_propagated (Err.db "down")).1 downClient rfl,
    (collaborator_failure_is_propagated (Err.db "down")).2.1 downClient "p1" (by decide) rfl,
    (collaborator_failure_is_propagated (Err.db "down")).2.2.1 asciiToLower downClient
      [("iops", Value.str "fast")] rfl,
    (collaborator_failure_is_propagated (Err.db "down")).2.2.2 none downClient
      (DockInput.other Value.nil) rfl⟩

/-- C14. For a volume identifier and a dock listing that succeeds: when
GetVolume fails, SelectDock fails with that error whatever GetPool would
answer; when the volume exists and GetPool fails for its pool identifier,
SelectDock fails with that error. No dock is returned, whatever the dock
inventory holds. -/
theorem selectDock_lookup_failure (nilDockId : Option String) (c : Client)
    (volID : String) (dcks : List DockSpec) (e : Err)
    (hdocks : c.ListDocks = Except.ok dcks) :
    (c.GetVolume volID = Except.error e →
      ∀ getPool : String → Except Err StoragePoolSpec,
        SelectDock nilDockId { c with GetPool := getPool } (DockInput.volumeId volID)
          = Outcome.error e) ∧
    (∀ vol : VolumeSpec, c.GetVolume volID = Except.ok vol →
      c.GetPool vol.PoolId = Except.error e →
      SelectDock nilDockId c (DockInput.volumeId volID) = Outcome.error e) := by
  constructor
  · intro hvol getPool
    simp only [SelectDock, resolvePool, hdocks, hvol]
  · intro vol hvol hp
    simp only [SelectDock, hdocks, resolvePool, hvol, hp]

/-- Witness for C14: the volume "v9" is absent; the volume "v2" exists and its
pool "pl9" is absent; the inventory holds the docks d1 and d2. -/
theorem selectDock_lookup_failure_witness :
    SelectDock none
      { fakeClient [] [pl1] [d1, d2] [vol1, volLost] with GetPool := fun _ => Except.ok pl1 }
      (DockInput.volumeId "v9") = Outcome.error (Err.db "volume not found") ∧
    SelectDock none (fakeClient [] [pl1] [d1, d2] [vol1, volLost]) (DockInput.volumeId "v2")
      = Outcome.error (Err.db "pool not found") :=
  ⟨(selectDock_lookup_failure none (fakeClient [] [pl1] [d1, d2] [vol1, volLost]) "v9"
      [d1, d2] (Err.db "volume not found") rfl).1 rfl (fun _ => Except.ok pl1),
    (selectDock_lookup_failure none (fakeClient [] [pl1] [d1, d2] [vol1, volLost]) "v2"
      [d1, d2] (Err.db "pool not found") rfl).2 volLost rfl rfl⟩

/-- C16. When the profile list holds two or more profiles named "default",
SelectProfile with the empty identifier returns the one that comes first in
the list. -/
theorem selectProfile_first_default_wins (c : Client)
    (pre : List ProfileSpec) (p : ProfileSpec) (rest : List ProfileSpec)
    (hlist : c.ListProfiles = Except.ok (pre ++ p :: rest))
    (hpre : ∀ q ∈ pre, q.Name ≠ "default")
    (hp : p.Name = "default")
    (_hmore : ∃ q ∈ rest, q.Name = "default") :
    SelectProfile c "" = Outcome.ok p ∧
      ∀ q ∈ rest, q.Name = "default" → q ≠ p → SelectProfile c "" ≠ Outcome.ok q := by
  have hsel : SelectProfile c "" = Outcome.ok p := by
    simp only [SelectProfile, if_true, hlist]
    exact findDefault_append pre p rest hp hpre
  refine ⟨hsel, ?_⟩
  intro q _ _ hne h
  rw [hsel] at h
  injection h with h
  exact hne h.symm

/-- Witness for C16: the default profile p1 comes before the default profile
prfDup and is the one returned. -/
theorem selectProfile_first_default_wins_witness :
    SelectProfile (fakeClient (prfNear ++ p1 :: [prfGold, prfDup]) [] [] []) ""
        = Outcome.ok p1 ∧
      ∀ q ∈ [prfGold, prfDup], q.Name = "default" → q ≠ p1 →
        SelectProfile (fakeClient (prfNear ++ p1 :: [prfGold, prfDup]) [] [] []) ""
          ≠ Outcome.ok q :=
  selectProfile_first_default_wins
    (fakeClient (prfNear ++ p1 :: [prfGold, prfDup]) [] [] [])
    prfNear p1 [prfGold, prfDup] rfl (by decide) (by decide) ⟨prfDup, by decide, by decide⟩

/-! ## SelectSupportedPool: presence, order of the keys, growth of the tag set -/

/-- C15. When no tag key lower-cases to "iops" or "latency" (nor is "diskType"
up to case), presence alone decides: SelectSupportedPool returns the first
pool of the inventory whose parameters contain every tag key, whatever the
tag values and the parameter values are, and it fails with the "no pool
supported" error if and only if no pool contains every tag key. -/
theorem selectSupportedPool_presence_only (toLower : String → String)
    (hlow : LowerCased toLower) (c : Client) (tags : Params) (pols : List StoragePoolSpec)
    (hlist : c.ListPools = Except.ok pols)
    (hkeys : ∀ k ∈ keys tags, toLower k ≠ toLower "diskType" ∧ ¬ ceilingKey toLower k) :
    (SelectSupportedPool toLower c tags =
      match firstWithKeys (keys tags) pols with
      | some pol => Outcome.ok pol
      | none => Outcome.error noSupportedPool) ∧
    (SelectSupportedPool toLower c tags = Outcome.error noSupportedPool ↔
      ∀ pol ∈ pols, ¬ ∀ k ∈ keys tags, hasKey pol k) := by
  have ht : tagsTyped toLower tags := fun k hk hc => absurd hc (hkeys k hk).2
  have hp : ∀ pol, poolTyped toLower tags pol :=
    fun pol k hk hc => absurd hc (hkeys k hk).2
  have hacc : ∀ pol, accepts toLower tags pol ↔ ∀ k ∈ keys tags, hasKey pol k := by
    intro pol
    constructor
    · intro h k hk
      exact (h k hk).1
    · intro h k hk
      exact ⟨h k hk, fun hc => absurd hc (hkeys k hk).2⟩
  have hdec : ∀ pol ∈ pols, isSupported toLower tags pol
      = some (decide (∀ k ∈ keys tags, hasKey pol k)) := by
    intro pol _
    by_cases h : ∀ k ∈ keys tags, hasKey pol k
    · rw [decide_eq_true h]
      exact (isSupported_eq_true_iff hlow).mpr ((hacc pol).mpr h)
    · rw [decide_eq_false h]
      exact (isSupported_eq_false_iff hlow ht (hp pol)).mpr (fun ha => h ((hacc pol).mp ha))
  have hsel : SelectSupportedPool toLower c tags = poolLoop toLower tags pols := by
    simp only [SelectSupportedPool, hlist]
  refine ⟨?_, ?_⟩
  · rw [hsel]
    exact poolLoop_find _ pols hdec
  · rw [hsel, poolLoop_error]
    constructor
    · rintro ⟨_, h⟩ pol hpol
      have := (isSupported_eq_false_iff hlow ht (hp pol)).mp (h pol hpol)
      exact fun hk => this ((hacc pol).mpr hk)
    · intro h
      refine ⟨rfl, fun pol hpol => ?_⟩
      exact (isSupported_eq_false_iff hlow ht (hp pol)).mpr
        (fun ha => h pol hpol ((hacc pol).mp ha))

/-- Witness for C15: the tags "zone" and "tier" with values that differ from
the parameters of the pool plZone in value and in type; pl200 lacks "tier" and
plZone is returned. -/
theorem selectSupportedPool_presence_only_witness :
    SelectSupportedPool asciiToLower (poolClient [pl200, plZone, pl1])
        [("zone", Value.str "z9"), ("tier", Value.bool true)] =
      (match firstWithKeys (keys [("zone", Value.str "z9"), ("tier", Value.bool true)])
          [pl200, plZone, pl1] with
        | some pol => Outcome.ok pol
        | none => Outcome.error noSupportedPool) ∧
    firstWithKeys (keys [("zone", Value.str "z9"), ("tier", Value.bool true)])
      [pl200, plZone, pl1] = some plZone :=
  ⟨(selectSupportedPool_presence_only asciiToLower asciiToLower_lowerCased
      (poolClient [pl200, plZone, pl1])
      [("zone", Value.str "z9"), ("tier", Value.bool true)] [pl200, plZone, pl1] rfl
      (by decide)).1, by decide⟩

/-- C17. With integer values under the keys that lower-case to "iops" or
"latency", in the tags and in the parameters of every pool, the outcome of
SelectSupportedPool does not depend on the order in which the tag keys are
visited: a tag map listed in another order gives the same outcome, and for
every pool the tag loop run over the keys in any order ends with the same
value of isSupported. -/
theorem selectSupportedPool_order_independent (toLower : String → String)
    (hlow : LowerCased toLower) (c : Client) (tags tags2 : Params)
    (pols : List StoragePoolSpec)
    (hlist : c.ListPools = Except.ok pols)
    (hnodup : (keys tags).Nodup)
    (hperm : List.Perm tags2 tags)
    (htags : tagsTyped toLower tags)
    (hpools : ∀ pol ∈ pols, poolTyped toLower tags pol) :
    SelectSupportedPool toLower c tags2 = SelectSupportedPool toLower c tags ∧
    ∀ pol ∈ pols, ∀ ks : List String, List.Perm ks (keys tags) →
      tagLoop toLower tags pol ks true = isSupported toLower tags pol := by
  have hloop : ∀ pol ∈ pols, ∀ ks : List String, List.Perm ks (keys tags) →
      tagLoop toLower tags pol ks true = isSupported toLower tags pol := by
    intro pol hpol ks hks
    exact tagLoop_perm hks (fun k hk s => tagStep_ne_panic hlow hk htags (hpools pol hpol) s)
  refine ⟨?_, hloop⟩
  simp only [SelectSupportedPool, hlist]
  apply poolLoop_congr
  intro pol hpol
  have h1 : isSupported toLower tags2 pol = tagLoop toLower tags pol (keys tags2) true :=
    tagLoop_congr (fun k => index_perm hperm hnodup k) pol (keys tags2) true
  rw [h1]
  exact hloop pol hpol (keys tags2) (List.Perm.map Prod.fst hperm)

/-- Witness for C17: the tags iops 300, zone, latency 1 and the same tags
listed in another order, against the pools plHdd and pl200. -/
theorem selectSupportedPool_order_independent_witness :
    SelectSupportedPool asciiToLower (poolClient [plHdd, pl200])
        [("latency", Value.int 1), ("zone", Value.str "z1"), ("iops", Value.int 300)] =
      SelectSupportedPool asciiToLower (poolClient [plHdd, pl200])
        [("iops", Value.int 300), ("zone", Value.str "z1"), ("latency", Value.int 1)] :=
  (selectSupportedPool_order_independent asciiToLower asciiToLower_lowerCased
    (poolClient [plHdd, pl200])
    [("iops", Value.int 300), ("zone", Value.str "z1"), ("latency", Value.int 1)]
    [("latency", Value.int 1), ("zone", Value.str "z1"), ("iops", Value.int 300)]
    [plHdd, pl200] rfl (by decide) (by decide)
    (by
      intro k hk hc
      simp only [keys, List.map_cons, List.map_nil, List.mem_cons, List.mem_singleton,
        List.not_mem_nil, or_false] at hk
      rcases hk with rfl | rfl | rfl
      · exact ⟨300, by decide⟩
      · exact absurd hc (by decide)
      · exact ⟨1, by decide⟩)
    (by
      intro pol hpol k hk hc p hp
      simp only [keys, List.map_cons, List.map_nil, List.mem_cons, List.mem_singleton,
        List.not_mem_nil, or_false] at hk hpol
      rcases hpol with rfl | rfl
      · rcases hk with rfl | rfl | rfl <;> simp [plHdd, List.lookup] at hp
      · rcases hk with rfl | rfl | rfl
        · simp [pl200, List.lookup] at hp
          exact ⟨200, hp.symm⟩
        · exact absurd hc (by decide)
        · simp [pl200, List.lookup] at hp
          exact ⟨200, hp.symm⟩)).1

/-- C18, the claim as stated fails: it asks for every pool inventory, and only
the tag sets are well-typed. The tags zone, iops 100 extend the tags iops 100
and both hold an int under "iops". Against the pools plBad and pl200 the
larger request returns pl200, the second pool (plBad lacks "zone" and is left
at once), while the smaller request panics on the string that plBad stores
under "iops". Against the pool plBad alone the request for "zone" fails with
the "no pool supported" error, while its extension iops 100, zone panics. -/
theorem selectSupportedPool_monotone_fails_on_untyped_pool :
    tagsTyped asciiToLower [("zone", Value.str "z1"), ("iops", Value.int 100)] ∧
    tagsTyped asciiToLower [("iops", Value.int 100)] ∧
    tagsExtend [("iops", Value.int 100)]
      [("zone", Value.str "z1"), ("iops", Value.int 100)] ∧
    SelectSupportedPool asciiToLower (poolClient [plBad, pl200])
      [("zone", Value.str "z1"), ("iops", Value.int 100)] = Outcome.ok pl200 ∧
    SelectSupportedPool asciiToLower (poolClient [plBad, pl200])
      [("iops", Value.int 100)] = Outcome.panic ∧
    tagsTyped asciiToLower [("zone", Value.str "z1")] ∧
    tagsExtend [("zone", Value.str "z1")]
      [("iops", Value.int 100), ("zone", Value.str "z1")] ∧
    SelectSupportedPool asciiToLower (poolClient [plBad])
      [("zone", Value.str "z1")] = Outcome.error noSupportedPool ∧
    SelectSupportedPool asciiToLower (poolClient [plBad])
      [("iops", Value.int 100), ("zone", Value.str "z1")] = Outcome.panic := by
  refine ⟨?_, ?_, by decide, by decide, by decide, ?_, by decide, by decide, by decide⟩
  · intro k hk hc
    simp only [keys, List.map_cons, List.map_nil, List.mem_cons, List.mem_singleton,
      List.not_mem_nil, or_false] at hk
    rcases hk with rfl | rfl
    · exact absurd hc (by decide)
    · exact ⟨100, by decide⟩
  · intro k hk hc
    simp only [keys, List.map_cons, List.map_nil, List.mem_singleton] at hk
    subst hk
    exact ⟨100, by decide⟩
  · intro k hk hc
    simp only [keys, List.map_cons, List.map_nil, List.mem_singleton] at hk
    subst hk
    exact absurd hc (by decide)

/-- C18 as amended. Let the tag set T2 extend the tag set T, with integer
values under the keys that lower-case to "iops" or "latency" in T2 and in the
parameters of every pool of the inventory. If SelectSupportedPool returns for
T2 the pool at a position of the inventory (the pools before it rejected),
then for T it succeeds and returns the pool at a position that is not later;
and if it fails for T with the "no pool supported" error, it fails so for T2. -/
theorem selectSupportedPool_monotone (toLower : String → String)
    (hlow : LowerCased toLower) (c : Client) (T T2 : Params) (pols : List StoragePoolSpec)
    (hlist : c.ListPools = Except.ok pols)
    (hext : tagsExtend T T2)
    (htags : tagsTyped toLower T2)
    (hpools : ∀ pol ∈ pols, poolTyped toLower T2 pol) :
    (∀ r, SelectSupportedPool toLower c T2 = Outcome.ok r →
      ∃ pre rest pre1 r1 rest1,
        pols = pre ++ r :: rest ∧
        (∀ q ∈ pre, isSupported toLower T2 q = some false) ∧
        SelectSupportedPool toLower c T = Outcome.ok r1 ∧
        pols = pre1 ++ r1 :: rest1 ∧
        (∀ q ∈ pre1, isSupported toLower T q = some false) ∧
        pre1.length ≤ pre.length) ∧
    (SelectSupportedPool toLower c T = Outcome.error noSupportedPool →
      SelectSupportedPool toLower c T2 = Outcome.error noSupportedPool) := by
  have htT : tagsTyped toLower T := tagsTyped_of_extend hext htags
  have hpT : ∀ pol ∈ pols, poolTyped toLower T pol :=
    fun pol hpol => poolTyped_of_extend hext (hpools pol hpol)
  have hsel : ∀ tags, SelectSupportedPool toLower c tags = poolLoop toLower tags pols := by
    intro tags
    simp only [SelectSupportedPool, hlist]
  constructor
  · intro r hr
    rw [hsel] at hr
    obtain ⟨pre, rest, heq, hpre, hsup⟩ := (poolLoop_ok pols r).mp hr
    have hacc : accepts toLower T r := accepts_of_extend hext (isSupported_true_accepts hsup)
    have hmem : ∀ q ∈ pre, q ∈ pols := by
      intro q hq
      rw [heq]
      exact List.mem_append_left _ hq
    obtain ⟨pre1, r1, rest1, h1, h2, h3, h4⟩ :=
      @poolLoop_not_later toLower T pre r rest
        (fun q hq => isSupported_ne_none hlow htT (hpT q (hmem q hq)))
        ((isSupported_eq_true_iff hlow).mpr hacc)
    refine ⟨pre, rest, pre1, r1, rest1, heq, hpre, ?_, ?_, h3, h4⟩
    · rw [hsel, heq]
      exact h1
    · rw [heq]
      exact h2
  · intro h
    rw [hsel] at h
    rw [hsel, poolLoop_error]
    refine ⟨rfl, fun q hq => ?_⟩
    have hq1 := ((poolLoop_error pols noSupportedPool).mp h).2 q hq
    have hno : ¬ accepts toLower T q :=
      (isSupported_eq_false_iff hlow htT (hpT q hq)).mp hq1
    exact (isSupported_eq_false_iff hlow htags (hpools q hq)).mpr
      (fun ha => hno (accepts_of_extend hext ha))

/-- Witness for C18 as amended: against the pools pl200 and pl1 the tags iops 100 are
extended by diskType "ssd". The larger request is answered with pl1, the
second pool, and the smaller request succeeds with a pool that is not later. -/
theorem selectSupportedPool_monotone_witness :
    ∃ pre rest pre1 r1 rest1,
      [pl200, pl1] = pre ++ pl1 :: rest ∧
      (∀ q ∈ pre, isSupported asciiToLower
        [("diskType", Value.str "ssd"), ("iops", Value.int 100)] q = some false) ∧
      SelectSupportedPool asciiToLower (poolClient [pl200, pl1]) [("iops", Value.int 100)]
        = Outcome.ok r1 ∧
      [pl200, pl1] = pre1 ++ r1 :: rest1 ∧
      (∀ q ∈ pre1, isSupported asciiToLower [("iops", Value.int 100)] q = some false) ∧
      pre1.length ≤ pre.length :=
  (selectSupportedPool_monotone asciiToLower asciiToLower_lowerCased
    (poolClient [pl200, pl1])
    [("iops", Value.int 100)] [("diskType", Value.str "ssd"), ("iops", Value.int 100)]
    [pl200, pl1] rfl (by decide)
    (by
      intro k hk hc
      simp only [keys, List.map_cons, List.map_nil, List.mem_cons, List.mem_singleton,
        List.not_mem_nil, or_false] at hk
      rcases hk with rfl | rfl
      · exact absurd hc (by decide)
      · exact ⟨100, by decide⟩)
    (by
      intro pol hpol k hk hc p hp
      simp only [keys, List.map_cons, List.map_nil, List.mem_cons, List.mem_singleton,
        List.not_mem_nil, or_false] at hk hpol
      rcases hpol with rfl | rfl
      · rcases hk with rfl | rfl
        · exact absurd hc (by decide)
        · simp [pl200, List.lookup] at hp
          exact ⟨200, hp.symm⟩
      · rcases hk with rfl | rfl
        · exact absurd hc (by decide)
        · simp [pl1, List.lookup] at hp
          exact ⟨500, hp.symm⟩)).1 pl1 (by decide)

/-- C19. With no desired tag and a non-empty pool inventory SelectSupportedPool
returns the first pool of the inventory, whatever its parameters are; with an
empty pool inventory it fails with the "no pool supported" error for every tag
set, whatever the types of the tag values. -/
theorem selectSupportedPool_edge_cases (toLower : String → String) (c : Client) :
    (∀ (pol : StoragePoolSpec) (rest : List StoragePoolSpec),
      c.ListPools = Except.ok (pol :: rest) →
      SelectSupportedPool toLower c [] = Outcome.ok pol) ∧
    (c.ListPools = Except.ok [] →
      ∀ tags : Params, SelectSupportedPool toLower c tags = Outcome.error noSupportedPool) := by
  constructor
  · intro pol rest h
    simp only [SelectSupportedPool, h, poolLoop, isSupported, keys, List.map_nil, tagLoop]
  · intro h tags
    simp only [SelectSupportedPool, h, poolLoop]

/-- Witness for C19: the first pool plBad is returned for the empty tag set;
the empty inventory gives the error for a tag set whose "iops" value is a
string. -/
theorem selectSupportedPool_edge_cases_witness :
    SelectSupportedPool asciiToLower (poolClient [plBad, pl1]) [] = Outcome.ok plBad ∧
    SelectSupportedPool asciiToLower (poolClient [])
      [("iops", Value.str "fast"), ("diskType", Value.int 1)]
      = Outcome.error noSupportedPool :=
  ⟨(selectSupportedPool_edge_cases asciiToLower (poolClient [plBad, pl1])).1 plBad [pl1] rfl,
    (selectSupportedPool_edge_cases asciiToLower (poolClient [])).2 rfl
      [("iops", Value.str "fast"), ("diskType", Value.int 1)]⟩

/-- C20. When every tag value under a key that lower-cases to "iops" or
"latency" is an int, and every parameter that a pool stores under such a tag
key is an int, no type assertion of the tag loop fails: SelectSupportedPool
ends with a pool of the inventory or with the "no pool supported" error and
does not panic, whatever the types of the values under the other keys,
"diskType" among them. -/
theorem selectSupportedPool_no_panic (toLower : String → String)
    (hlow : LowerCased toLower) (c : Client) (tags : Params) (pols : List StoragePoolSpec)
    (hlist : c.ListPools = Except.ok pols)
    (htags : tagsTyped toLower tags)
    (hpools : ∀ pol ∈ pols, poolTyped toLower tags pol) :
    ((∃ pol ∈ pols, SelectSupportedPool toLower c tags = Outcome.ok pol) ∨
      SelectSupportedPool toLower c tags = Outcome.error noSupportedPool) ∧
    SelectSupportedPool toLower c tags ≠ Outcome.panic ∧
    (∀ pol ∈ pols, ∀ k ∈ keys tags, ∀ s : Bool,
      tagStep toLower tags pol s k ≠ Step.panic) := by
  have hsel : SelectSupportedPool toLower c tags = poolLoop toLower tags pols := by
    simp only [SelectSupportedPool, hlist]
  have htot := @poolLoop_total toLower tags pols
    (fun pol hpol => isSupported_ne_none hlow htags (hpools pol hpol))
  rw [hsel]
  refine ⟨htot, ?_, fun pol hpol k hk s => tagStep_ne_panic hlow hk htags (hpools pol hpol) s⟩
  intro h
  rcases htot with ⟨pol, _, hp⟩ | hp
  · rw [hp] at h; cases h
  · rw [hp] at h; cases h

/-- Witness for C20: the desired "diskType" is a boolean and the pool plOdd
stores an int under "diskType"; the values under "iops" are ints, and plOdd
is returned. -/
theorem selectSupportedPool_no_panic_witness :
    SelectSupportedPool asciiToLower (poolClient [plOdd])
      [("diskType", Value.bool true), ("iops", Value.int 100)] = Outcome.ok plOdd := by
  have h := (selectSupportedPool_no_panic asciiToLower asciiToLower_lowerCased
    (poolClient [plOdd]) [("diskType", Value.bool true), ("iops", Value.int 100)] [plOdd] rfl
    (by
      intro k hk hc
      simp only [keys, List.map_cons, List.map_nil, List.mem_cons, List.mem_singleton,
        List.not_mem_nil, or_false] at hk
      rcases hk with rfl | rfl
      · exact absurd hc (by decide)
      · exact ⟨100, by decide⟩)
    (by
      intro pol hpol k hk hc p hp
      simp only [keys, List.map_cons, List.map_nil, List.mem_cons, List.mem_singleton,
        List.not_mem_nil, or_false] at hk hpol
      subst hpol
      rcases hk with rfl | rfl
      · exact absurd hc (by decide)
      · simp [plOdd, List.lookup] at hp
        exact ⟨200, hp.symm⟩)).1
  rcases h with ⟨pol, hpol, hsel⟩ | hsel
  · simp only [List.mem_singleton] at hpol
    subst hpol
    exact hsel
  · exact absurd hsel (by decide)

end selector
